import Mathlib

/-!
Verification of the `dense_reconstruction` view planner.

Shallow embedding of `src/dense_reconstruction/code_base/view_planner.cpp`
(class `ViewPlanner`) and proofs about its planning loop:

* the return/utility calculator `calculateReturn` (lines 257-273),
* the next-best-view selection scan inside `run()` (lines 182-197),
* the per-round view-return vector construction (lines 173-180),
* the movement-cost phase of a round (lines 132-150),
* the retry helpers `retrieveDataAndWait` (350-374) and `moveToAndWait` (376-400),
* the data recorder `saveNBVData` / `getIndexForAdditionalField` (281-320, 402-412),
* the command callback (520-552).

`double` is modelled as `ℚ`; none of the verified properties depend on
floating-point rounding.  Remote services are modelled as oracles
(`ℕ → Option _`), one response per call; `none` is a failed service call
(`ros::ServiceClient::call` returning `false`), in which case the output
parameter is not written.
-/

namespace DenseReconstruction

/-! ## Utility calculator (`ViewPlanner::calculateReturn`, lines 257-273) -/

/-- Embedding of `ViewPlanner::calculateReturn` (view_planner.cpp lines 257-273).
`view_return = -1 * cost_weight_ * _cost`; if the information vector is
longer than the weight vector the function returns `view_return`
unchanged (after an error log); otherwise it adds
`information_weights_[i] * _informations[i]` for every index of the
information vector.  The member configuration `cost_weight_` and
`information_weights_` are explicit arguments here. -/
def calculateReturn (cost_weight : ℚ) (information_weights : List ℚ)
    (cost : ℚ) (informations : List ℚ) : ℚ :=
  let view_return : ℚ := -1 * cost_weight * cost
  if informations.length > information_weights.length then
    view_return
  else
    view_return +
      ((List.range informations.length).map
        (fun i => information_weights.getD i 0 * informations.getD i 0)).sum

/-! ## NBV selection scan (`ViewPlanner::run`, lines 182-197)

The C++ scan is
```
unsigned int nbv_index;            // NOT initialised
double highest_return = 0;
double second_highest = 0;
for i in [0, views_to_consider.size()):
  if cost[i] == -1: continue
  if view_returns[i] > highest_return:
    nbv_index = i; second_highest = highest_return; highest_return = view_returns[i]
```
`nbvScan cost ret n` is the state `(nbv_index, highest_return,
second_highest)` after the first `n` loop iterations; the uninitialised
`nbv_index` is modelled as `Option ℕ` starting at `none` (reading it
while still `none` is undefined behaviour in the source). -/

/-- State of the selection scan after processing indices `0..n-1`:
`(nbv_index?, highest_return, second_highest)`. -/
def nbvScan (cost ret : List ℚ) : ℕ → Option ℕ × ℚ × ℚ
  | 0 => (none, 0, 0)
  | n + 1 =>
    if cost.getD n 0 = -1 then nbvScan cost ret n
    else if ret.getD n 0 > (nbvScan cost ret n).2.1 then
      (some n, ret.getD n 0, (nbvScan cost ret n).2.1)
    else nbvScan cost ret n

/-- The full selection scan of `run()` over all candidates
(`views_to_consider.size() = cost.size() = view_returns.size()`). -/
def selectNBV (cost ret : List ℚ) : Option ℕ × ℚ × ℚ :=
  nbvScan cost ret cost.length

/-- The winning margin recorded at line 202:
`highest_return - second_highest`. -/
def winningMargin (cost ret : List ℚ) : ℚ :=
  (selectNBV cost ret).2.1 - (selectNBV cost ret).2.2

/-- Invariant of the selection scan, proved by induction on the number of
processed iterations:  the runner-up is nonnegative and below the leader;
every viable processed return is at most the leader; while no index is
selected the accumulators are still `0`; once `j` is selected, `j` is a
viable processed index whose return equals the (positive) leader, and
every viable index before `j` has a strictly smaller return. -/
theorem nbvScan_invariant (cost ret : List ℚ) (n : ℕ) (sel : Option ℕ)
    (high second : ℚ) (hs : nbvScan cost ret n = (sel, high, second)) :
    0 ≤ second ∧ second ≤ high ∧
    (∀ i, i < n → cost.getD i 0 ≠ -1 → ret.getD i 0 ≤ high) ∧
    (sel = none → high = 0 ∧ second = 0) ∧
    (∀ j, sel = some j →
      j < n ∧ cost.getD j 0 ≠ -1 ∧ ret.getD j 0 = high ∧ 0 < high ∧
      (∀ i, i < j → cost.getD i 0 ≠ -1 → ret.getD i 0 < high)) := by
  induction n generalizing sel high second with
  | zero =>
    rw [nbvScan] at hs
    obtain ⟨hsel, hhigh, hsec⟩ : sel = none ∧ high = 0 ∧ second = 0 := by
      refine ⟨(congrArg Prod.fst hs).symm, ?_, ?_⟩
      · exact (congrArg (fun p => p.2.1) hs).symm
      · exact (congrArg (fun p => p.2.2) hs).symm
    subst hsel; subst hhigh; subst hsec
    refine ⟨le_refl 0, le_refl 0, ?_, fun _ => ⟨rfl, rfl⟩, ?_⟩
    · intro i hi; omega
    · intro j hj; exact absurd hj (by simp)
  | succ n ih =>
    rcases hp : nbvScan cost ret n with ⟨sel0, high0, second0⟩
    obtain ⟨h0, h1, h2, h3, h4⟩ := ih sel0 high0 second0 hp
    rw [nbvScan, hp] at hs
    by_cases hc : cost.getD n 0 = -1
    · rw [if_pos hc] at hs
      obtain ⟨e1, e2, e3⟩ : sel0 = sel ∧ high0 = high ∧ second0 = second := by
        refine ⟨congrArg Prod.fst hs, ?_, ?_⟩
        · exact congrArg (fun p => p.2.1) hs
        · exact congrArg (fun p => p.2.2) hs
      subst e1; subst e2; subst e3
      refine ⟨h0, h1, ?_, h3, ?_⟩
      · intro i hi hvi
        rcases Nat.lt_succ_iff_lt_or_eq.mp hi with hlt | heq
        · exact h2 i hlt hvi
        · exact absurd (heq ▸ hc) hvi
      · intro j hj
        obtain ⟨hjn, hjv, hjr, hjp, hjb⟩ := h4 j hj
        exact ⟨Nat.lt_succ_of_lt hjn, hjv, hjr, hjp, hjb⟩
    · rw [if_neg hc] at hs
      by_cases hr : ret.getD n 0 > high0
      · rw [if_pos hr] at hs
        obtain ⟨e1, e2, e3⟩ : some n = sel ∧ ret.getD n 0 = high ∧ high0 = second := by
          refine ⟨congrArg Prod.fst hs, ?_, ?_⟩
          · exact congrArg (fun p => p.2.1) hs
          · exact congrArg (fun p => p.2.2) hs
        subst e1; subst e2; subst e3
        refine ⟨le_trans h0 h1, le_of_lt hr, ?_, ?_, ?_⟩
        · intro i hi hvi
          rcases Nat.lt_succ_iff_lt_or_eq.mp hi with hlt | heq
          · exact le_of_lt (lt_of_le_of_lt (h2 i hlt hvi) hr)
          · subst heq; exact le_refl _
        · intro hnone; exact absurd hnone (by simp)
        · intro j hj
          have hjn : j = n := by
            have := hj.symm
            simpa using this
          subst hjn
          refine ⟨Nat.lt_succ_self j, hc, rfl, ?_, ?_⟩
          · exact lt_of_le_of_lt (le_trans h0 h1) hr
          · intro i hi hvi
            exact lt_of_le_of_lt (h2 i hi hvi) hr
      · rw [if_neg hr] at hs
        push_neg at hr
        obtain ⟨e1, e2, e3⟩ : sel0 = sel ∧ high0 = high ∧ second0 = second := by
          refine ⟨congrArg Prod.fst hs, ?_, ?_⟩
          · exact congrArg (fun p => p.2.1) hs
          · exact congrArg (fun p => p.2.2) hs
        subst e1; subst e2; subst e3
        refine ⟨h0, h1, ?_, h3, ?_⟩
        · intro i hi hvi
          rcases Nat.lt_succ_iff_lt_or_eq.mp hi with hlt | heq
          · exact h2 i hlt hvi
          · subst heq; exact hr
        · intro j hj
          obtain ⟨hjn, hjv, hjr, hjp, hjb⟩ := h4 j hj
          exact ⟨Nat.lt_succ_of_lt hjn, hjv, hjr, hjp, hjb⟩

/-- If every viable candidate among the first `n` has a nonpositive
return, the scan never fires: no index is selected and both accumulators
remain `0`. -/
theorem nbvScan_of_nonpos (cost ret : List ℚ) (n : ℕ)
    (h : ∀ i, i < n → cost.getD i 0 ≠ -1 → ret.getD i 0 ≤ 0) :
    nbvScan cost ret n = (none, 0, 0) := by
  induction n with
  | zero => rfl
  | succ n ih =>
    have hprev : nbvScan cost ret n = (none, 0, 0) :=
      ih (fun i hi => h i (Nat.lt_succ_of_lt hi))
    rw [nbvScan, hprev]
    split_ifs with hc hr
    · rfl
    · exfalso
      have hr0 : ret.getD n 0 > (0 : ℚ) := hr
      have := h n (Nat.lt_succ_self n) hc
      linarith
    · rfl

/-- Indices the scan treats as cost-viable (`cost[i] != -1`). -/
def viableIndices (cost : List ℚ) : List ℕ :=
  (List.range cost.length).filter (fun i => cost.getD i 0 ≠ -1)

/-- If exactly one index `j` is viable among the first `N` and its return is
positive, the scan ends at `(some j, ret j, 0)`. -/
theorem nbvScan_single (cost ret : List ℚ) (j N : ℕ)
    (hv : cost.getD j 0 ≠ -1) (hr : 0 < ret.getD j 0)
    (honly : ∀ i, i < N → i ≠ j → cost.getD i 0 = -1) :
    ∀ n, n ≤ N →
      (n ≤ j → nbvScan cost ret n = (none, 0, 0)) ∧
      (j < n → nbvScan cost ret n = (some j, ret.getD j 0, 0)) := by
  intro n
  induction n with
  | zero =>
    intro _
    exact ⟨fun _ => rfl, fun h => absurd h (Nat.not_lt_zero j)⟩
  | succ n ih =>
    intro hN
    obtain ⟨ih1, ih2⟩ := ih (Nat.le_of_succ_le hN)
    constructor
    · intro hnj
      have hlt : n < j := Nat.lt_of_succ_le hnj
      have hprev := ih1 (Nat.le_of_lt hlt)
      have hcn : cost.getD n 0 = -1 :=
        honly n (Nat.lt_of_succ_le hN) (Nat.ne_of_lt hlt)
      rw [nbvScan, hprev, if_pos hcn]
    · intro hjn
      rcases Nat.lt_succ_iff_lt_or_eq.mp hjn with hlt | heq
      · have hprev := ih2 hlt
        have hcn : cost.getD n 0 = -1 :=
          honly n (Nat.lt_of_succ_le hN) (fun h => absurd (h ▸ hlt) (lt_irrefl j))
        rw [nbvScan, hprev, if_pos hcn]
      · subst heq
        have hprev := ih1 (le_refl j)
        rw [nbvScan, hprev, if_neg hv]
        have : ret.getD j 0 > ((none, 0, 0) : Option ℕ × ℚ × ℚ).2.1 := hr
        rw [if_pos this]

/-- Claim C1 as stated, refuted: with one candidate whose cost is viable
(`1 ≠ -1`) but whose return is negative, the scan never fires (the guard is
`view_returns[i] > highest_return` with `highest_return` initialised to `0`),
so no index is selected at all — in the C++ source `nbv_index` is then read
uninitialised.  The claim would require index `0` to be selected. -/
theorem c1_counterexample :
    (1 : ℚ) ≠ -1 ∧ (selectNBV [(1 : ℚ)] [(-5 : ℚ)]).1 = none := by
  constructor
  · norm_num
  · rfl

/-- Claim C1 amended: in every round in which at least one cost-viable
candidate has a *strictly positive* return, the scan selects a viable index
whose return is maximal among all viable candidates, and every viable index
before it has a strictly smaller return (so ties resolve to the lowest
index).  Without a positive viable return, no index is selected. -/
theorem c1_nbv_selects_max (cost ret : List ℚ)
    (hpos : ∃ i, i < cost.length ∧ cost.getD i 0 ≠ -1 ∧ 0 < ret.getD i 0) :
    ∃ j, (selectNBV cost ret).1 = some j ∧ j < cost.length ∧
      cost.getD j 0 ≠ -1 ∧
      (∀ i, i < cost.length → cost.getD i 0 ≠ -1 →
        ret.getD i 0 ≤ ret.getD j 0) ∧
      (∀ i, i < j → cost.getD i 0 ≠ -1 → ret.getD i 0 < ret.getD j 0) := by
  rcases hs : selectNBV cost ret with ⟨sel, high, second⟩
  obtain ⟨h0, h1, h2, h3, h4⟩ :=
    nbvScan_invariant cost ret cost.length sel high second hs
  cases sel with
  | none =>
    obtain ⟨hh, _⟩ := h3 rfl
    obtain ⟨i, hi, hvi, hpi⟩ := hpos
    have := h2 i hi hvi
    rw [hh] at this
    exact absurd (lt_of_lt_of_le hpi this) (lt_irrefl 0)
  | some j =>
    obtain ⟨hjn, hjv, hjr, hjp, hjb⟩ := h4 j rfl
    refine ⟨j, rfl, hjn, hjv, ?_, ?_⟩
    · intro i hi hvi; rw [hjr]; exact h2 i hi hvi
    · intro i hi hvi; rw [hjr]; exact hjb i hi hvi

/-- Witness for `c1_nbv_selects_max`: candidates with costs `[1, -1, 2]`
and returns `[5, 9, 5]`; indices `0` and `2` are viable with equal return
`5` (index `1` is cost-excluded despite the larger return), so the scan
must select the lowest maximising viable index, `0`. -/
theorem c1_nbv_selects_max_witness :
    (∃ i, i < ([(1 : ℚ), -1, 2]).length ∧ ([(1 : ℚ), -1, 2]).getD i 0 ≠ -1 ∧
      0 < ([(5 : ℚ), 9, 5]).getD i 0) ∧
    (∃ j, (selectNBV [(1 : ℚ), -1, 2] [(5 : ℚ), 9, 5]).1 = some j ∧
      j < ([(1 : ℚ), -1, 2]).length ∧ ([(1 : ℚ), -1, 2]).getD j 0 ≠ -1 ∧
      (∀ i, i < ([(1 : ℚ), -1, 2]).length → ([(1 : ℚ), -1, 2]).getD i 0 ≠ -1 →
        ([(5 : ℚ), 9, 5]).getD i 0 ≤ ([(5 : ℚ), 9, 5]).getD j 0) ∧
      (∀ i, i < j → ([(1 : ℚ), -1, 2]).getD i 0 ≠ -1 →
        ([(5 : ℚ), 9, 5]).getD i 0 < ([(5 : ℚ), 9, 5]).getD j 0)) :=
  ⟨⟨0, by norm_num⟩,
    c1_nbv_selects_max [(1 : ℚ), -1, 2] [(5 : ℚ), 9, 5] ⟨0, by norm_num⟩⟩

/-- Claim C2 as stated, refuted: a round with a single cost-viable candidate
(fewer than 2) whose return is `5` records winning margin
`highest_return - second_highest = 5 - 0 = 5 ≠ 0`. -/
theorem c2_counterexample :
    (viableIndices [(1 : ℚ)]).length = 1 ∧
    winningMargin [(1 : ℚ)] [(5 : ℚ)] = 5 := by
  constructor
  · rfl
  · norm_num [winningMargin, selectNBV, nbvScan]

/-- Claim C2 amended: the recorded winning margin is always `≥ 0`; it is `0`
whenever no cost-viable candidate has a strictly positive return (in
particular when no viable candidate exists at all); and in a round whose
only viable candidate `j` has positive return, the margin equals that
return rather than `0`. -/
theorem c2_winning_margin (cost ret : List ℚ) :
    0 ≤ winningMargin cost ret ∧
    ((∀ i, i < cost.length → cost.getD i 0 ≠ -1 → ret.getD i 0 ≤ 0) →
      winningMargin cost ret = 0) ∧
    (∀ j, j < cost.length → cost.getD j 0 ≠ -1 → 0 < ret.getD j 0 →
      (∀ i, i < cost.length → i ≠ j → cost.getD i 0 = -1) →
      winningMargin cost ret = ret.getD j 0) := by
  refine ⟨?_, ?_, ?_⟩
  · rcases hs : selectNBV cost ret with ⟨sel, high, second⟩
    obtain ⟨h0, h1, _, _, _⟩ :=
      nbvScan_invariant cost ret cost.length sel high second hs
    have : winningMargin cost ret = high - second := by
      rw [winningMargin, hs]
    rw [this]
    linarith
  · intro h
    have := nbvScan_of_nonpos cost ret cost.length h
    rw [winningMargin, selectNBV, this]
    norm_num
  · intro j hj hv hr honly
    have := (nbvScan_single cost ret j cost.length hv hr honly
      cost.length (le_refl _)).2 hj
    rw [winningMargin, selectNBV, this]
    ring

/-- Witness for `c2_winning_margin`: the round with costs `[1, -1]` and
returns `[5, 9]` has `j = 0` as its only viable candidate; the margin is
its return `5`. -/
theorem c2_winning_margin_witness :
    0 ≤ winningMargin [(1 : ℚ), -1] [(5 : ℚ), 9] ∧
    winningMargin [(1 : ℚ), -1] [(5 : ℚ), 9] = ([(5 : ℚ), 9]).getD 0 0 :=
  ⟨(c2_winning_margin [(1 : ℚ), -1] [(5 : ℚ), 9]).1,
    (c2_winning_margin [(1 : ℚ), -1] [(5 : ℚ), 9]).2.2 0 (by norm_num)
      (by norm_num) (by norm_num)
      (by
        intro i hi hij
        have hi2 : i < 2 := by simpa using hi
        have hi1 : i = 1 := by omega
        subst hi1
        norm_num)⟩

/-! ## C5 / C9: the return computation -/

/-- The index-loop sum of lines 267-270 equals the pairwise weighted sum of
the information entries when the weight vector is at least as long. -/
theorem weightedSum_eq_zipWith (ws infos : List ℚ) (h : infos.length ≤ ws.length) :
    ((List.range infos.length).map
      (fun i => ws.getD i 0 * infos.getD i 0)).sum =
      (List.zipWith (fun w x => w * x) ws infos).sum := by
  induction infos generalizing ws with
  | nil => simp
  | cons x xs ih =>
    cases ws with
    | nil => simp at h
    | cons w ws' =>
      have hlen : xs.length ≤ ws'.length := by simpa using h
      simp only [List.length_cons, List.range_succ_eq_map, List.map_cons,
        List.map_map, List.sum_cons, List.zipWith_cons_cons,
        List.getD_cons_zero]
      have hfun : ((fun i => (w :: ws').getD i 0 * (x :: xs).getD i 0) ∘ Nat.succ) =
          (fun i => ws'.getD i 0 * xs.getD i 0) := by
        funext i
        simp [Function.comp, List.getD_cons_succ]
      rw [hfun, ih ws' hlen]

/-- Claim C5: `calculateReturn` yields
`-costWeight·cost + Σᵢ weightᵢ·infoᵢ` (the sum running over the
information vector's entries) when the information vector is at most as
long as the weight vector, and exactly the cost-only term
`-costWeight·cost` when it is strictly longer. -/
theorem c5_calculate_return (cost_weight cost : ℚ) (ws infos : List ℚ) :
    (infos.length ≤ ws.length →
      calculateReturn cost_weight ws cost infos =
        -(cost_weight * cost) +
          (List.zipWith (fun w x => w * x) ws infos).sum) ∧
    (infos.length > ws.length →
      calculateReturn cost_weight ws cost infos = -(cost_weight * cost)) := by
  constructor
  · intro h
    rw [calculateReturn]
    rw [if_neg (not_lt.mpr h), weightedSum_eq_zipWith ws infos h]
    ring_nf
  · intro h
    rw [calculateReturn, if_pos h]
    ring

/-- Witness for `c5_calculate_return`: weights `[2, 3]`, cost `4`,
information `[5, 6]` gives `-(1·4) + (2·5 + 3·6) = 24`; the overlong case
with information `[5, 6, 7]` gives the cost-only term `-4`. -/
theorem c5_calculate_return_witness :
    calculateReturn 1 [(2 : ℚ), 3] 4 [(5 : ℚ), 6] =
      -((1 : ℚ) * 4) + (List.zipWith (fun w x => w * x) [(2 : ℚ), 3] [(5 : ℚ), 6]).sum ∧
    calculateReturn 1 [(2 : ℚ), 3] 4 [(5 : ℚ), 6, 7] = -((1 : ℚ) * 4) :=
  ⟨(c5_calculate_return 1 4 [(2 : ℚ), 3] [(5 : ℚ), 6]).1 (by norm_num),
    (c5_calculate_return 1 4 [(2 : ℚ), 3] [(5 : ℚ), 6, 7]).2 (by norm_num)⟩

/-- Claim C9 as stated, refuted: with weight vector `[1]`, cost `0` and
information `[5, 7]`, the claim predicts that only the excess entry `7` is
dropped, giving `-0 + 1·5 = 5`; the code instead returns the cost-only
term `0` (lines 261-265 return before the summation loop). -/
theorem c9_counterexample :
    calculateReturn 1 [(1 : ℚ)] 0 [(5 : ℚ), 7] = 0 ∧
    calculateReturn 1 [(1 : ℚ)] 0 [(5 : ℚ), 7] ≠ 5 := by
  constructor
  · rw [calculateReturn, if_pos (by norm_num)]; ring
  · rw [calculateReturn, if_pos (by norm_num)]; norm_num

/-- Claim C9 amended: when the information vector is strictly longer than
the weight vector, *all* information entries are dropped — the leading
entries receive no credit either — and the function returns exactly the
cost-only term (after an error-level log, `ROS_ERROR_STREAM`, line 263). -/
theorem c9_overlong_info_drops_all (cost_weight cost : ℚ) (ws infos : List ℚ)
    (h : infos.length > ws.length) :
    calculateReturn cost_weight ws cost infos = -1 * cost_weight * cost := by
  rw [calculateReturn, if_pos h]

/-- Witness for `c9_overlong_info_drops_all` at weights `[1]`,
information `[5, 7]`. -/
theorem c9_overlong_info_drops_all_witness :
    ([(5 : ℚ), 7]).length > ([(1 : ℚ)]).length ∧
    calculateReturn 1 [(1 : ℚ)] 0 [(5 : ℚ), 7] = -1 * 1 * 0 :=
  ⟨by norm_num, c9_overlong_info_drops_all 1 0 [(1 : ℚ)] [(5 : ℚ), 7] (by norm_num)⟩

/-! ## Retry helpers (`retrieveDataAndWait`, lines 350-374, and
`moveToAndWait`, lines 376-400)

Both helpers are do-while loops: invoke the wrapped service, and while the
attempt failed and `abort_loop_` is not set, sleep, drain pending commands
(`ros::spinOnce()`, which may set `abort_loop_`) and try again.  After the
loop, `if (abort_loop_) abort_loop_ = false`.  The service is an oracle
giving the response of the `k`-th invocation (`none` = the ROS service call
itself returned `false`, leaving the output parameter unwritten — the
`!service_succeeded` short-circuit then makes the attempt a failure).
`abortArrives k` says whether an `ABORT_LOOP` command is delivered during
the sleep/spin following failed attempt `k`; this is the only point inside
the helper where the flag can change in the cooperative model (§5 of the
spec).  `fuel` bounds how many iterations of the unbounded C++ loop we
unfold; `none` means the loop is still running after `fuel` attempts. -/

/-- Modelled from the spec: `RobotPlanningInterface::ReceiveInfo` is an enum
is declared in `robot_planning_interface.h`, which is not under `src/`; §4.3
describes it as a closed enum whose only success value is `RECEIVED`. -/
inductive ReceiveInfo
  | RECEIVED
  | NOT_RECEIVED
deriving DecidableEq

/-- Outcome of a retry helper: how many times the wrapped operation was
invoked, whether the last attempt was observed to succeed, and the value of
`abort_loop_` when the helper returns. -/
structure RetryResult where
  attempts : ℕ
  observedSuccess : Bool
  abortFlagOnExit : Bool
deriving DecidableEq

/-- Success of the `k`-th attempt of `retrieveDataAndWait` (line 356-357):
the service call succeeded and `receive_info == RECEIVED`. -/
def retrieveAttempt (svc : ℕ → Option ReceiveInfo) (k : ℕ) : Bool :=
  match svc k with
  | none => false
  | some info => decide (info = ReceiveInfo.RECEIVED)

/-- Success of the `k`-th attempt of `moveToAndWait` (line 382-383): the
service call succeeded and `successfully_moved` is true. -/
def moveAttempt (svc : ℕ → Option Bool) (k : ℕ) : Bool :=
  match svc k with
  | none => false
  | some moved => moved

/-- The shared do-while retry loop.  State: remaining fuel, index `k` of the
next attempt, current `abort_loop_` flag.  One iteration: run attempt `k`;
on failure the flag may be set by a command drained during the sleep
(`abortFlag || abortArrives k`); the loop continues iff the attempt failed
and the flag is unset.  On exit the flag is cleared (lines 365-369 /
391-395), so it is always `false` on return. -/
def retryLoop (ok abortArrives : ℕ → Bool) :
    ℕ → ℕ → Bool → Option RetryResult
  | 0, _, _ => none
  | fuel + 1, k, abortFlag =>
    if ok k then some ⟨k + 1, true, false⟩
    else if abortFlag || abortArrives k then some ⟨k + 1, false, false⟩
    else retryLoop ok abortArrives fuel (k + 1) (abortFlag || abortArrives k)

/-- Embedding of `ViewPlanner::retrieveDataAndWait` (lines 350-374). -/
def retrieveDataAndWait (svc : ℕ → Option ReceiveInfo)
    (abortArrives : ℕ → Bool) (abortFlag0 : Bool) (fuel : ℕ) :
    Option RetryResult :=
  retryLoop (retrieveAttempt svc) abortArrives fuel 0 abortFlag0

/-- Embedding of `ViewPlanner::moveToAndWait` (lines 376-400). -/
def moveToAndWait (svc : ℕ → Option Bool)
    (abortArrives : ℕ → Bool) (abortFlag0 : Bool) (fuel : ℕ) :
    Option RetryResult :=
  retryLoop (moveAttempt svc) abortArrives fuel 0 abortFlag0

/-- If attempts `k .. k+M-1` fail, attempt `k+M` succeeds and no abort ever
arrives, the loop performs exactly `M+1` further attempts and exits in
success with the flag clear. -/
theorem retryLoop_success (ok ab : ℕ → Bool) :
    ∀ (M k fuel : ℕ), (∀ j, k ≤ j → j < k + M → ok j = false) →
      ok (k + M) = true → (∀ j, ab j = false) → M < fuel →
      retryLoop ok ab fuel k false = some ⟨k + M + 1, true, false⟩ := by
  intro M
  induction M with
  | zero =>
    intro k fuel _ hsucc _ hfuel
    obtain ⟨f, rfl⟩ : ∃ f, fuel = f + 1 := ⟨fuel - 1, by omega⟩
    rw [retryLoop]
    simp only [Nat.add_zero] at hsucc
    rw [if_pos (by rw [hsucc])]
  | succ M ih =>
    intro k fuel hfail hsucc hab hfuel
    obtain ⟨f, rfl⟩ : ∃ f, fuel = f + 1 := ⟨fuel - 1, by omega⟩
    rw [retryLoop]
    have hk : ok k = false := hfail k (le_refl k) (by omega)
    rw [if_neg (by rw [hk]; exact Bool.false_ne_true)]
    rw [hab k]
    simp only [Bool.or_false]
    rw [if_neg Bool.false_ne_true]
    have hfail2 : ∀ j, k + 1 ≤ j → j < (k + 1) + M → ok j = false := by
      intro j h1 h2; exact hfail j (by omega) (by omega)
    have hsucc2 : ok ((k + 1) + M) = true := by
      have heq : (k + 1) + M = k + (M + 1) := by omega
      rw [heq]; exact hsucc
    have := ih (k + 1) f hfail2 hsucc2 hab (by omega)
    rw [this]
    have heq : k + 1 + M + 1 = k + (M + 1) + 1 := by omega
    rw [heq]

/-- If attempts `k .. k+M` all fail, no abort arrives before the sleep of
attempt `k+M`, and an abort arrives there, the loop stops after attempt
`k+M` (no further invocations) and exits unsuccessfully with the flag
cleared. -/
theorem retryLoop_abort (ok ab : ℕ → Bool) :
    ∀ (M k fuel : ℕ), (∀ j, k ≤ j → j ≤ k + M → ok j = false) →
      (∀ j, k ≤ j → j < k + M → ab j = false) → ab (k + M) = true →
      M < fuel →
      retryLoop ok ab fuel k false = some ⟨k + M + 1, false, false⟩ := by
  intro M
  induction M with
  | zero =>
    intro k fuel hfail _ habM hfuel
    obtain ⟨f, rfl⟩ : ∃ f, fuel = f + 1 := ⟨fuel - 1, by omega⟩
    rw [retryLoop]
    have hk : ok k = false := hfail k (le_refl k) (by omega)
    rw [if_neg (by rw [hk]; exact Bool.false_ne_true)]
    simp only [Nat.add_zero] at habM
    simp [habM]
  | succ M ih =>
    intro k fuel hfail hab habM hfuel
    obtain ⟨f, rfl⟩ : ∃ f, fuel = f + 1 := ⟨fuel - 1, by omega⟩
    rw [retryLoop]
    have hk : ok k = false := hfail k (le_refl k) (by omega)
    rw [if_neg (by rw [hk]; exact Bool.false_ne_true)]
    rw [hab k (le_refl k) (by omega)]
    simp only [Bool.or_false]
    rw [if_neg Bool.false_ne_true]
    have hfail2 : ∀ j, k + 1 ≤ j → j ≤ (k + 1) + M → ok j = false := by
      intro j h1 h2; exact hfail j (by omega) (by omega)
    have hab2 : ∀ j, k + 1 ≤ j → j < (k + 1) + M → ab j = false := by
      intro j h1 h2; exact hab j (by omega) (by omega)
    have habM2 : ab ((k + 1) + M) = true := by
      have heq : (k + 1) + M = k + (M + 1) := by omega
      rw [heq]; exact habM
    have := ih (k + 1) f hfail2 hab2 habM2 (by omega)
    rw [this]
    have heq : k + 1 + M + 1 = k + (M + 1) + 1 := by omega
    rw [heq]

/-- Claim C3: for both retry helpers: if the wrapped operation fails (service
failure or non-accepted result) on its first `N` invocations and succeeds on
invocation `N+1`, with the abort flag never set, the helper invokes the
operation exactly `N+1` times and returns having observed success; and if
the operation keeps failing and an abort command arrives during the sleep
after attempt `M` (0-based), the helper stops after that failed attempt —
`M+1` invocations, none further — and exits with the abort flag cleared. -/
theorem c3_retry_helpers
    (N : ℕ) (svcR : ℕ → Option ReceiveInfo) (svcM : ℕ → Option Bool)
    (M : ℕ) (svcR2 : ℕ → Option ReceiveInfo) (svcM2 : ℕ → Option Bool)
    (ab : ℕ → Bool) (fuel : ℕ)
    (hRf : ∀ k, k < N → svcR k = none ∨ svcR k = some ReceiveInfo.NOT_RECEIVED)
    (hRs : svcR N = some ReceiveInfo.RECEIVED)
    (hMf : ∀ k, k < N → svcM k = none ∨ svcM k = some false)
    (hMs : svcM N = some true)
    (hR2 : ∀ k, k ≤ M → svcR2 k = none ∨ svcR2 k = some ReceiveInfo.NOT_RECEIVED)
    (hM2 : ∀ k, k ≤ M → svcM2 k = none ∨ svcM2 k = some false)
    (hab1 : ∀ k, k < M → ab k = false) (hab2 : ab M = true)
    (hfuelN : N < fuel) (hfuelM : M < fuel) :
    retrieveDataAndWait svcR (fun _ => false) false fuel =
      some ⟨N + 1, true, false⟩ ∧
    moveToAndWait svcM (fun _ => false) false fuel =
      some ⟨N + 1, true, false⟩ ∧
    retrieveDataAndWait svcR2 ab false fuel = some ⟨M + 1, false, false⟩ ∧
    moveToAndWait svcM2 ab false fuel = some ⟨M + 1, false, false⟩ := by
  refine ⟨?_, ?_, ?_, ?_⟩
  · have := retryLoop_success (retrieveAttempt svcR) (fun _ => false) N 0 fuel
      (fun j _ hj => by
        rcases hRf j (by omega) with h | h <;> simp [retrieveAttempt, h])
      (by simp only [Nat.zero_add]; simp [retrieveAttempt, hRs])
      (fun _ => rfl) hfuelN
    simpa using this
  · have := retryLoop_success (moveAttempt svcM) (fun _ => false) N 0 fuel
      (fun j _ hj => by
        rcases hMf j (by omega) with h | h <;> simp [moveAttempt, h])
      (by simp only [Nat.zero_add]; simp [moveAttempt, hMs])
      (fun _ => rfl) hfuelN
    simpa using this
  · have := retryLoop_abort (retrieveAttempt svcR2) ab M 0 fuel
      (fun j _ hj => by
        rcases hR2 j (by omega) with h | h <;> simp [retrieveAttempt, h])
      (fun j _ hj => hab1 j (by omega))
      (by simpa using hab2) hfuelM
    simpa using this
  · have := retryLoop_abort (moveAttempt svcM2) ab M 0 fuel
      (fun j _ hj => by
        rcases hM2 j (by omega) with h | h <;> simp [moveAttempt, h])
      (fun j _ hj => hab1 j (by omega))
      (by simpa using hab2) hfuelM
    simpa using this

/-- Witness for `c3_retry_helpers`: the retrieval/move services fail twice
and succeed on the third call (`N = 2`); in the abort scenario the services
always fail and the abort command arrives during the sleep after the second
attempt (`M = 1`). -/
theorem c3_retry_helpers_witness :
    retrieveDataAndWait
        (fun k => if k < 2 then some ReceiveInfo.NOT_RECEIVED
                  else some ReceiveInfo.RECEIVED)
        (fun _ => false) false 5 = some ⟨3, true, false⟩ ∧
    moveToAndWait (fun k => if k < 2 then some false else some true)
        (fun _ => false) false 5 = some ⟨3, true, false⟩ ∧
    retrieveDataAndWait (fun _ => none) (fun k => decide (k = 1)) false 5 =
      some ⟨2, false, false⟩ ∧
    moveToAndWait (fun _ => none) (fun k => decide (k = 1)) false 5 =
      some ⟨2, false, false⟩ :=
  c3_retry_helpers 2
    (fun k => if k < 2 then some ReceiveInfo.NOT_RECEIVED
              else some ReceiveInfo.RECEIVED)
    (fun k => if k < 2 then some false else some true)
    1 (fun _ => none) (fun _ => none) (fun k => decide (k = 1)) 5
    (by intro k hk; right; simp [hk])
    (by norm_num)
    (by intro k hk; right; simp [hk])
    (by norm_num)
    (by intro k _; left; rfl)
    (by intro k _; left; rfl)
    (by intro k hk; simp; omega)
    (by simp)
    (by norm_num) (by norm_num)

/-! ## Movement-cost phase and the view space (C4, C7) -/

/-- Modelled from the spec: `RobotPlanningInterface::MovementCost` exception tags.  From
the spec: the enum is declared in `robot_planning_interface.h`, which is
not under `src/`; §3 gives the closed set `{NONE, UNREACHABLE, TIMEOUT,
OTHER}` ("exact members are a collaborator contract, not fixed here"). -/
inductive CostException
  | NONE
  | UNREACHABLE
  | TIMEOUT
  | OTHER
deriving DecidableEq

/-- Embedding of `RobotPlanningInterface::MovementCost`: a cost scalar plus an
exception tag. -/
structure MovementCost where
  cost : ℚ
  exception : CostException
deriving DecidableEq

/-- Modelled from the spec: the run-loop (line 139) discards the boolean
returned by `ViewPlanner::movementCost`, so after a failed service call
`cost_description` keeps its default state (`fromMsg`, line 468, is only
called on success).  The default state of the struct is declared in
`robot_planning_interface.h`, not under `src/`; per §4.4 "a single failed
or exceptional result immediately marks the candidate view bad", so the
default is modelled as carrying a non-`NONE` exception tag. -/
def failedMovementCost : MovementCost := ⟨0, CostException.OTHER⟩

/-- The value of `cost_description` after lines 137-139: the response if
the service call succeeded, the default state otherwise. -/
def movementCostResult (resp : Option MovementCost) : MovementCost :=
  match resp with
  | none => failedMovementCost
  | some m => m

/-- A camera pose (position and orientation quaternion components), as
serialised into a planning-data row (lines 286-292). -/
structure Pose where
  px : ℚ
  py : ℚ
  pz : ℚ
  ox : ℚ
  oy : ℚ
  oz : ℚ
  ow : ℚ
deriving DecidableEq

instance : Inhabited Pose := ⟨⟨0, 0, 0, 0, 0, 0, 0⟩⟩

/-- Modelled from the spec: class `ViewSpace` lives in `view_space.cpp`,
which is not under `src/`.  §3: "an ordered collection of Views, each
tagged good or bad"; mutated only through marking bad and full
replacement.  Views are addressed by their index, as in the planner
loop. -/
structure ViewSpace where
  numViews : ℕ
  poseAt : ℕ → Pose
  isBad : ℕ → Bool

/-- Modelled from the spec: `ViewSpace::setBad` (§3/§4.7) tags view `i` bad. -/
def ViewSpace.setBad (vs : ViewSpace) (i : ℕ) : ViewSpace :=
  { vs with isBad := fun j => if j = i then true else vs.isBad j }

/-- Modelled from the spec: `ViewSpace::getGoodViewSpace` as used by
`ViewPlanner::determineAvailableViewSpace` (lines 252-255): the indices of
all views not tagged bad. -/
def ViewSpace.getGoodViewSpace (vs : ViewSpace) : List ℕ :=
  (List.range vs.numViews).filter (fun i => !vs.isBad i)

/-- The movement-cost phase of one round (`run()`, lines 132-150),
threading the number of `movementCost` service invocations performed so
far: for every candidate in order, invoke the service once (`oracle calls`
is the response of the `calls`-th invocation; `none` = the ROS call
returned false); on a non-`NONE` exception tag mark the candidate bad and
record the sentinel cost `-1`, otherwise record the returned cost.
Returns the cost vector, the updated view space and the final invocation
count. -/
def costPhase (oracle : ℕ → Option MovementCost) :
    List ℕ → ViewSpace → ℕ → List ℚ × ViewSpace × ℕ
  | [], vs, calls => ([], vs, calls)
  | v :: rest, vs, calls =>
    if (movementCostResult (oracle calls)).exception ≠ CostException.NONE then
      ((-1 : ℚ) :: (costPhase oracle rest (vs.setBad v) (calls + 1)).1,
        (costPhase oracle rest (vs.setBad v) (calls + 1)).2.1,
        (costPhase oracle rest (vs.setBad v) (calls + 1)).2.2)
    else
      ((movementCostResult (oracle calls)).cost ::
          (costPhase oracle rest vs (calls + 1)).1,
        (costPhase oracle rest vs (calls + 1)).2.1,
        (costPhase oracle rest vs (calls + 1)).2.2)

/-- The invocation counter increases by exactly one per candidate. -/
theorem costPhase_calls (oracle : ℕ → Option MovementCost) :
    ∀ (views : List ℕ) (vs : ViewSpace) (calls : ℕ),
      (costPhase oracle views vs calls).2.2 = calls + views.length := by
  intro views
  induction views with
  | nil => intro vs calls; simp [costPhase]
  | cons v rest ih =>
    intro vs calls
    rw [costPhase]
    by_cases hex : (movementCostResult (oracle calls)).exception ≠ CostException.NONE
    · rw [if_pos hex]
      simp only [List.length_cons]
      rw [ih (vs.setBad v) (calls + 1)]
      omega
    · rw [if_neg hex]
      simp only [List.length_cons]
      rw [ih vs (calls + 1)]
      omega

/-- One cost entry per candidate. -/
theorem costPhase_length (oracle : ℕ → Option MovementCost) :
    ∀ (views : List ℕ) (vs : ViewSpace) (calls : ℕ),
      (costPhase oracle views vs calls).1.length = views.length := by
  intro views
  induction views with
  | nil => intro vs calls; simp [costPhase]
  | cons v rest ih =>
    intro vs calls
    rw [costPhase]
    by_cases hex : (movementCostResult (oracle calls)).exception ≠ CostException.NONE
    · rw [if_pos hex]; simp only [List.length_cons, ih]
    · rw [if_neg hex]; simp only [List.length_cons, ih]

/-- The cost recorded for the `i`-th candidate is `-1` exactly when its
single service response carries a non-`NONE` exception tag (in particular
when the call failed), and the returned cost scalar otherwise. -/
theorem costPhase_getD (oracle : ℕ → Option MovementCost) :
    ∀ (views : List ℕ) (vs : ViewSpace) (calls : ℕ) (i : ℕ), i < views.length →
      (costPhase oracle views vs calls).1.getD i 0 =
        (if (movementCostResult (oracle (calls + i))).exception ≠ CostException.NONE
         then -1 else (movementCostResult (oracle (calls + i))).cost) := by
  intro views
  induction views with
  | nil => intro vs calls i hi; simp at hi
  | cons v rest ih =>
    intro vs calls i hi
    rw [costPhase]
    by_cases hex : (movementCostResult (oracle calls)).exception ≠ CostException.NONE
    · rw [if_pos hex]
      cases i with
      | zero => simp [hex]
      | succ i =>
        simp only [List.getD_cons_succ]
        rw [ih (vs.setBad v) (calls + 1) i (by simpa using hi)]
        have : calls + 1 + i = calls + (i + 1) := by omega
        rw [this]
    · rw [if_neg hex]
      cases i with
      | zero => simp [hex]
      | succ i =>
        simp only [List.getD_cons_succ]
        rw [ih vs (calls + 1) i (by simpa using hi)]
        have : calls + 1 + i = calls + (i + 1) := by omega
        rw [this]

/-- A view is bad after the cost phase iff it was bad before or some
candidate equal to it received an exceptional (or failed) cost response. -/
theorem costPhase_isBad (oracle : ℕ → Option MovementCost) :
    ∀ (views : List ℕ) (vs : ViewSpace) (calls : ℕ) (w : ℕ),
      (costPhase oracle views vs calls).2.1.isBad w = true ↔
        (vs.isBad w = true ∨ ∃ i, i < views.length ∧ views.getD i 0 = w ∧
          (movementCostResult (oracle (calls + i))).exception ≠
            CostException.NONE) := by
  intro views
  induction views with
  | nil =>
    intro vs calls w
    simp [costPhase]
  | cons v rest ih =>
    intro vs calls w
    rw [costPhase]
    by_cases hex : (movementCostResult (oracle calls)).exception ≠ CostException.NONE
    · rw [if_pos hex]
      simp only
      rw [ih (vs.setBad v) (calls + 1) w]
      constructor
      · rintro (hbad | ⟨i, hi, hiv, hexi⟩)
        · rw [ViewSpace.setBad] at hbad
          simp only at hbad
          by_cases hw : w = v
          · exact Or.inr ⟨0, by simp, by simpa using hw.symm ▸ rfl, by simpa using hex⟩
          · rw [if_neg hw] at hbad
            exact Or.inl hbad
        · refine Or.inr ⟨i + 1, by simpa using hi, by simpa using hiv, ?_⟩
          have : calls + (i + 1) = calls + 1 + i := by omega
          rw [this]; exact hexi
      · rintro (hbad | ⟨i, hi, hiv, hexi⟩)
        · left
          rw [ViewSpace.setBad]
          simp only
          by_cases hw : w = v
          · rw [if_pos hw]
          · rw [if_neg hw]; exact hbad
        · cases i with
          | zero =>
            left
            rw [ViewSpace.setBad]
            simp only
            rw [if_pos (by simpa using hiv.symm)]
          | succ i =>
            refine Or.inr ⟨i, by simpa using hi, by simpa using hiv, ?_⟩
            have : calls + 1 + i = calls + (i + 1) := by omega
            rw [this]; exact hexi
    · rw [if_neg hex]
      simp only
      rw [ih vs (calls + 1) w]
      constructor
      · rintro (hbad | ⟨i, hi, hiv, hexi⟩)
        · exact Or.inl hbad
        · refine Or.inr ⟨i + 1, by simpa using hi, by simpa using hiv, ?_⟩
          have : calls + (i + 1) = calls + 1 + i := by omega
          rw [this]; exact hexi
      · rintro (hbad | ⟨i, hi, hiv, hexi⟩)
        · exact Or.inl hbad
        · cases i with
          | zero =>
            exfalso
            apply hex
            have h0 : calls + 0 = calls := by omega
            rw [h0] at hexi
            exact not_not.mp (by simpa using hexi)
          | succ i =>
            refine Or.inr ⟨i, by simpa using hi, by simpa using hiv, ?_⟩
            have : calls + 1 + i = calls + (i + 1) := by omega
            rw [this]; exact hexi

/-- Claim C4: every candidate's movement cost is evaluated exactly once (the
service invocation counter ends at exactly one invocation per candidate,
never retried); a service-level failure yields the modelled default
exception tag; a candidate whose single response fails or carries a
non-`NONE` tag gets the sentinel cost `-1` and is marked bad; a candidate
whose response succeeds with tag `NONE` gets the returned cost scalar and
(for the distinct candidate indices produced by
`determineAvailableViewSpace`) is not marked bad. -/
theorem c4_cost_evaluated_once (oracle : ℕ → Option MovementCost)
    (views : List ℕ) (vs : ViewSpace) :
    (costPhase oracle views vs 0).2.2 = views.length ∧
    (costPhase oracle views vs 0).1.length = views.length ∧
    (∀ i, oracle i = none →
      (movementCostResult (oracle i)).exception ≠ CostException.NONE) ∧
    (∀ i, i < views.length →
      ((movementCostResult (oracle i)).exception ≠ CostException.NONE →
        (costPhase oracle views vs 0).1.getD i 0 = -1 ∧
        (costPhase oracle views vs 0).2.1.isBad (views.getD i 0) = true) ∧
      ((movementCostResult (oracle i)).exception = CostException.NONE →
        (costPhase oracle views vs 0).1.getD i 0 =
          (movementCostResult (oracle i)).cost ∧
        (views.Nodup → vs.isBad (views.getD i 0) = false →
          (costPhase oracle views vs 0).2.1.isBad (views.getD i 0) = false))) := by
  refine ⟨by simpa using costPhase_calls oracle views vs 0,
    costPhase_length oracle views vs 0, ?_, ?_⟩
  · intro i hnone
    rw [hnone]
    rw [movementCostResult]
    simp [failedMovementCost]
  · intro i hi
    constructor
    · intro hex
      constructor
      · rw [costPhase_getD oracle views vs 0 i hi]
        simp only [Nat.zero_add]
        rw [if_pos hex]
      · rw [costPhase_isBad oracle views vs 0 (views.getD i 0)]
        exact Or.inr ⟨i, hi, rfl, by simpa using hex⟩
    · intro hex
      constructor
      · rw [costPhase_getD oracle views vs 0 i hi]
        simp only [Nat.zero_add]
        rw [if_neg (by simpa using hex)]
      · intro hnodup hgood
        rw [Bool.eq_false_iff]
        intro hbad
        rw [costPhase_isBad oracle views vs 0 (views.getD i 0)] at hbad
        rcases hbad with hbad | ⟨i2, hi2, hiv2, hex2⟩
        · rw [hgood] at hbad; exact Bool.false_ne_true hbad
        · have hii : i2 = i := by
            have hgi : views[i2] = views[i] := by
              rw [← List.getD_eq_getElem views 0 hi2,
                ← List.getD_eq_getElem views 0 hi]
              exact hiv2
            exact hnodup.getElem_inj_iff.mp hgi
          subst hii
          simp only [Nat.zero_add] at hex2
          exact hex2 hex

/-- Witness for `c4_cost_evaluated_once`: two candidates `[0, 1]`; the
first invocation fails at service level, the second succeeds with tag
`NONE` and cost `7`. -/
theorem c4_cost_evaluated_once_witness :
    (costPhase (fun k => if k = 0 then none else some ⟨7, CostException.NONE⟩)
      [0, 1] ⟨2, fun _ => default, fun _ => false⟩ 0).1.getD 0 0 = -1 ∧
    (costPhase (fun k => if k = 0 then none else some ⟨7, CostException.NONE⟩)
      [0, 1] ⟨2, fun _ => default, fun _ => false⟩ 0).2.1.isBad 0 = true ∧
    (costPhase (fun k => if k = 0 then none else some ⟨7, CostException.NONE⟩)
      [0, 1] ⟨2, fun _ => default, fun _ => false⟩ 0).1.getD 1 0 = 7 ∧
    (costPhase (fun k => if k = 0 then none else some ⟨7, CostException.NONE⟩)
      [0, 1] ⟨2, fun _ => default, fun _ => false⟩ 0).2.1.isBad 1 = false ∧
    (costPhase (fun k => if k = 0 then none else some ⟨7, CostException.NONE⟩)
      [0, 1] ⟨2, fun _ => default, fun _ => false⟩ 0).2.2 = 2 := by
  have h := c4_cost_evaluated_once
    (fun k => if k = 0 then none else some ⟨7, CostException.NONE⟩)
    [0, 1] ⟨2, fun _ => default, fun _ => false⟩
  refine ⟨(((h.2.2.2 0 (by norm_num)).1 (by decide)).1 : _),
    ?_, ?_, ?_, h.1⟩
  · exact ((h.2.2.2 0 (by norm_num)).1 (by decide)).2
  · exact ((h.2.2.2 1 (by norm_num)).2 (by decide)).1
  · exact ((h.2.2.2 1 (by norm_num)).2 (by decide)).2 (by decide) rfl

/-! ## C7: bad views never resurface -/

/-- The view-space mutations of the remaining planning loop: every later
round recomputes its candidate list via `determineAvailableViewSpace`
(= `getGoodViewSpace`, lines 129-130) and then runs its movement-cost
phase — the only operation of the loop body that mutates the view space
(`setBad`, line 143).  `oracles` gives one cost-service oracle per
subsequent round. -/
def runRounds (oracles : List (ℕ → Option MovementCost)) (vs : ViewSpace) :
    ViewSpace :=
  match oracles with
  | [] => vs
  | o :: rest => runRounds rest (costPhase o vs.getGoodViewSpace vs 0).2.1

/-- Lemma: `costPhase` never clears a bad mark. -/
theorem costPhase_bad_mono (oracle : ℕ → Option MovementCost)
    (views : List ℕ) (vs : ViewSpace) (calls : ℕ) (w : ℕ)
    (h : vs.isBad w = true) :
    (costPhase oracle views vs calls).2.1.isBad w = true :=
  (costPhase_isBad oracle views vs calls w).mpr (Or.inl h)

/-- No sequence of later rounds clears a bad mark. -/
theorem runRounds_bad_mono (oracles : List (ℕ → Option MovementCost)) :
    ∀ (vs : ViewSpace) (w : ℕ), vs.isBad w = true →
      (runRounds oracles vs).isBad w = true := by
  induction oracles with
  | nil => intro vs w h; exact h
  | cons o rest ih =>
    intro vs w h
    rw [runRounds]
    exact ih _ w (costPhase_bad_mono o vs.getGoodViewSpace vs 0 w h)

/-- A bad view is not in the good view space. -/
theorem bad_not_in_good (vs : ViewSpace) (w : ℕ) (h : vs.isBad w = true) :
    w ∉ vs.getGoodViewSpace := by
  rw [ViewSpace.getGoodViewSpace]
  intro hmem
  have := List.of_mem_filter hmem
  rw [h] at this
  simp at this

/-- Claim C7: if the cost phase of some round receives an exceptional (or
failed) response for its `i`-th candidate `w`, then `w` is marked bad, and
for every sequence of subsequent rounds — whose candidate lists are
recomputed from the good view space, the loop never clearing bad marks —
`w` stays bad and is absent from the candidate list
(`determineAvailableViewSpace`) of every one of those rounds. -/
theorem c7_bad_views_stay_excluded (oracle : ℕ → Option MovementCost)
    (views : List ℕ) (vs : ViewSpace) (i w : ℕ)
    (hi : i < views.length) (hw : views.getD i 0 = w)
    (hex : (movementCostResult (oracle i)).exception ≠ CostException.NONE) :
    ∀ oracles : List (ℕ → Option MovementCost),
      (runRounds oracles (costPhase oracle views vs 0).2.1).isBad w = true ∧
      w ∉ (runRounds oracles (costPhase oracle views vs 0).2.1).getGoodViewSpace := by
  intro oracles
  have hbad : (costPhase oracle views vs 0).2.1.isBad w = true :=
    (costPhase_isBad oracle views vs 0 w).mpr
      (Or.inr ⟨i, hi, hw, by simpa using hex⟩)
  have hstays := runRounds_bad_mono oracles _ w hbad
  exact ⟨hstays, bad_not_in_good _ w hstays⟩

/-- Witness for `c7_bad_views_stay_excluded`: view `1` of a 3-view space
gets a `UNREACHABLE` cost response; after two further rounds (with
all-successful cost services) it is still bad and missing from the
candidate list. -/
theorem c7_bad_views_stay_excluded_witness :
    (runRounds [fun _ => some ⟨1, CostException.NONE⟩,
        fun _ => some ⟨2, CostException.NONE⟩]
      (costPhase (fun k => if k = 1 then some ⟨0, CostException.UNREACHABLE⟩
          else some ⟨1, CostException.NONE⟩)
        [0, 1, 2] ⟨3, fun _ => default, fun _ => false⟩ 0).2.1).isBad 1 = true ∧
    1 ∉ (runRounds [fun _ => some ⟨1, CostException.NONE⟩,
        fun _ => some ⟨2, CostException.NONE⟩]
      (costPhase (fun k => if k = 1 then some ⟨0, CostException.UNREACHABLE⟩
          else some ⟨1, CostException.NONE⟩)
        [0, 1, 2] ⟨3, fun _ => default, fun _ => false⟩ 0).2.1).getGoodViewSpace :=
  c7_bad_views_stay_excluded
    (fun k => if k = 1 then some ⟨0, CostException.UNREACHABLE⟩
      else some ⟨1, CostException.NONE⟩)
    [0, 1, 2] ⟨3, fun _ => default, fun _ => false⟩ 1 1
    (by norm_num) rfl (by decide)
    [fun _ => some ⟨1, CostException.NONE⟩, fun _ => some ⟨2, CostException.NONE⟩]

/-! ## C8: the command callback (lines 520-552) -/

/-- The five control flags initialised `false` in the constructor
(lines 29-33). -/
structure ControlFlags where
  start : Bool
  pause : Bool
  stop_and_print : Bool
  reinit : Bool
  abort_loop : Bool
deriving DecidableEq

/-- Embedding of `ViewPlanner::commandCallback` (lines 520-552): the effect of one
incoming command token on the control flags.  The second component is
`true` iff the callback invokes `saveDataToFile()` (the immediate
Data-Recorder flush triggered by `PRINT_DATA`, line 550) — the only side
effect besides flag writes. -/
def commandCallback (msg : String) (f : ControlFlags) : ControlFlags × Bool :=
  if msg = "START" then
    ({ f with start := true, pause := false, stop_and_print := false }, false)
  else if msg = "PAUSE" then
    ({ f with start := false, pause := true, stop_and_print := false }, false)
  else if msg = "STOP_AND_PRINT" then
    ({ f with start := false, pause := false, stop_and_print := true }, false)
  else if msg = "REINIT" then
    ({ f with reinit := true }, false)
  else if msg = "ABORT_LOOP" then
    ({ f with abort_loop := true }, false)
  else if msg = "PRINT_DATA" then
    (f, true)
  else
    (f, false)

/-- Claim C8: the exact effect of each command token on the control flags:
`START`/`PAUSE`/`STOP_AND_PRINT` overwrite the started/paused/stop flags
as specified (leaving `reinit` and `abort_loop` alone), `REINIT` and
`ABORT_LOOP` only set their own flag, `PRINT_DATA` changes no flag and
flushes the Data Recorder immediately, and every other token is ignored
with no side effect. -/
theorem c8_command_effects (f : ControlFlags) :
    commandCallback "START" f =
      ({ f with start := true, pause := false, stop_and_print := false }, false) ∧
    commandCallback "PAUSE" f =
      ({ f with start := false, pause := true, stop_and_print := false }, false) ∧
    commandCallback "STOP_AND_PRINT" f =
      ({ f with start := false, pause := false, stop_and_print := true }, false) ∧
    commandCallback "REINIT" f = ({ f with reinit := true }, false) ∧
    commandCallback "ABORT_LOOP" f = ({ f with abort_loop := true }, false) ∧
    commandCallback "PRINT_DATA" f = (f, true) ∧
    (∀ msg : String,
      msg ∉ ["START", "PAUSE", "STOP_AND_PRINT", "REINIT", "ABORT_LOOP",
        "PRINT_DATA"] →
      commandCallback msg f = (f, false)) := by
  refine ⟨rfl, rfl, rfl, rfl, rfl, rfl, ?_⟩
  intro msg hmsg
  simp only [List.mem_cons, List.not_mem_nil, or_false, not_or] at hmsg
  obtain ⟨h1, h2, h3, h4, h5, h6⟩ := hmsg
  rw [commandCallback, if_neg h1, if_neg h2, if_neg h3, if_neg h4, if_neg h5,
    if_neg h6]

/-- Witness for `c8_command_effects`: an unrecognised token leaves the
all-false flag state untouched and triggers no flush. -/
theorem c8_command_effects_witness :
    commandCallback "RESET" ⟨false, false, false, false, false⟩ =
      (⟨false, false, false, false, false⟩, false) :=
  (c8_command_effects ⟨false, false, false, false, false⟩).2.2.2.2.2.2
    "RESET" (by decide)

/-! ## C6: the data recorder (`saveNBVData`, lines 281-320,
`getIndexForAdditionalField`, lines 402-412) -/

/-- The 21 base column names pushed in the constructor (lines 74-94). -/
def basePlanningDataNames : List String :=
  ["pos_x", "pos_y", "pos_z", "rot_x", "rot_y", "rot_z", "rot_w",
   "return_value", "winning_margin", "return_value_mean",
   "return_value_stddev", "cost", "NrOfUnknownVoxels", "AverageUncertainty",
   "AverageEndPointUncertainty", "UnknownObjectSideFrontier",
   "UnknownObjectVolumeFrontier", "ClassicFrontier", "EndNodeOccupancySum",
   "TotalOccupancyCertainty", "TotalNrOfOccupieds"]

/-- Embedding of `ViewPlanner::getIndexForAdditionalField` (lines 402-412): the index
of the first column with this name, appending a new column if absent.
Returns the (possibly extended) name list and the index. -/
def getIndexForAdditionalField (names : List String) (name : String) :
    List String × ℕ :=
  match names.indexOf? name with
  | some i => (names, i)
  | none => (names ++ [name], names.length)

/-- Embedding of `ReturnValueInformation` (declared in `view_planner.h`, used at
lines 200-205 and 293-296). -/
structure ReturnValueInformation where
  return_value : ℚ
  winning_margin : ℚ
  return_value_mean : ℚ
  return_value_stddev : ℚ
deriving DecidableEq

/-- The recorder's state: `planning_data_names_` and `planning_data_`. -/
structure PlanningData where
  names : List String
  rows : List (List ℚ)
deriving DecidableEq

/-- Lines 307-315, one additional field: look up (or append) the column,
`resize(index+1)` the row being built if it is too short
(value-initialising new entries to `0`), then write the value at the
column index.  Only the row being built is touched. -/
def addField (acc : List String × List ℚ) (field : String × ℚ) :
    List String × List ℚ :=
  let r := getIndexForAdditionalField acc.1 field.1
  let row :=
    if acc.2.length ≤ r.2 then
      acc.2 ++ List.replicate (r.2 + 1 - acc.2.length) 0
    else acc.2
  (r.1, row.set r.2 field.2)

/-- Embedding of `ViewPlanner::saveNBVData` (lines 281-320): build the base row (7 pose
components, 4 return statistics, the cost, then the information-gain
entries), process the additional fields when both optional vectors are
present with equal lengths, and append the row. -/
def saveNBVData (pd : PlanningData) (nbv : Pose)
    (ri : ReturnValueInformation) (cost : ℚ) (information_gain : List ℚ)
    (extra : Option (List String × List ℚ)) : PlanningData :=
  let nbv_data :=
    [nbv.px, nbv.py, nbv.pz, nbv.ox, nbv.oy, nbv.oz, nbv.ow,
      ri.return_value, ri.winning_margin, ri.return_value_mean,
      ri.return_value_stddev, cost] ++ information_gain
  match extra with
  | some (enames, evalues) =>
    if enames.length = evalues.length then
      ((List.zip enames evalues).foldl addField (pd.names, nbv_data)).1
        |> fun names2 =>
          { names := names2,
            rows := pd.rows ++
              [((List.zip enames evalues).foldl addField (pd.names, nbv_data)).2] }
    else { pd with rows := pd.rows ++ [nbv_data] }
  | none => { pd with rows := pd.rows ++ [nbv_data] }

/-- Embedding of `ViewPlanner::saveDataToFile` (lines 322-348) without the file output: the
flushed table is the header (column names) plus each recorded row, each
line containing exactly the entries of its own row vector (a row shorter
than the header produces a short line; nothing is back-filled at flush
time). -/
def saveDataToFile (pd : PlanningData) : List String × List (List ℚ) :=
  (pd.names, pd.rows)

/-- The C6 scenario, first recording: a row with extra fields
`{A ↦ 1, B ↦ 2}` on a fresh recorder (9 information-gain entries, so the
base row spans the 21 base columns). -/
def c6StateOne : PlanningData :=
  saveNBVData ⟨basePlanningDataNames, []⟩ default ⟨0, 0, 0, 0⟩ 0
    (List.replicate 9 0) (some (["A", "B"], [1, 2]))

/-- The C6 scenario, second recording: a row with extra fields
`{A ↦ 3, C ↦ 4}`. -/
def c6StateTwo : PlanningData :=
  saveNBVData c6StateOne default ⟨0, 0, 0, 0⟩ 0
    (List.replicate 9 0) (some (["A", "C"], [3, 4]))

/-- Claim C6 as stated, refuted: after recording extra field sets
`{A, B}` then `{A, C}`, the flushed table has 24 columns
(`...base..., A, B, C` — column `C` at index 23), but the *first* row
still has only 23 entries: it never gains an entry (let alone a `0`) at
column `C`'s index.  Previously recorded rows are not back-filled; only
the row currently being built is resized (line 312). -/
theorem c6_counterexample :
    (saveDataToFile c6StateTwo).1.length = 24 ∧
    (saveDataToFile c6StateTwo).1.indexOf? "C" = some 23 ∧
    ((saveDataToFile c6StateTwo).2.getD 0 []).length = 23 := by
  refine ⟨rfl, ?_, rfl⟩
  rfl

/-- Claim C6 amended: the column list grows in first-appearance order to
`base ++ [A, B, C]`; the *newly recorded* row is back-filled — the second
row has `0` at column `B` (index 22) while holding `3` at `A` and `4` at
`C` — but the previously recorded first row is left at its old length 23
(holding its `A` and `B` values), gaining no entry for column `C`. -/
theorem c6_recorder_backfill :
    (saveDataToFile c6StateTwo).1 = basePlanningDataNames ++ ["A", "B", "C"] ∧
    ((saveDataToFile c6StateTwo).2.getD 0 []).length = 23 ∧
    ((saveDataToFile c6StateTwo).2.getD 0 []).getD 21 0 = 1 ∧
    ((saveDataToFile c6StateTwo).2.getD 0 []).getD 22 0 = 2 ∧
    ((saveDataToFile c6StateTwo).2.getD 1 []).length = 24 ∧
    ((saveDataToFile c6StateTwo).2.getD 1 []).getD 21 0 = 3 ∧
    ((saveDataToFile c6StateTwo).2.getD 1 []).getD 22 0 = 0 ∧
    ((saveDataToFile c6StateTwo).2.getD 1 []).getD 23 0 = 4 := by
  refine ⟨rfl, rfl, ?_, ?_, rfl, ?_, ?_, ?_⟩ <;> rfl

/-! ## C10: the per-round return statistics (lines 173-180 and 200-205)

Lines 173-180 build `std::vector<double> view_returns(n)` — value-initialised
to `n` zeros, one slot per entry of `views_to_consider` — and then assign
`view_returns[i] = calculateReturn(cost[i], information[i])` for every
candidate, *skipping* (`continue`) the cost-excluded ones, whose slots keep
the value `0`.  Lines 203-205 then hand the whole vector to
`st_is::StdError` and record its mean and the square root of its variance.
`st_is::StdError` (from `utils/math.h`) is not under `src/`; it is modelled
from the spec (§3: "mean and standard deviation of all candidate returns
this round") as the mean and population variance.  `std::sqrt` has no exact
rational counterpart, so the development works at the level of the variance
— the square of the recorded standard deviation — which determines the
nonnegative standard deviation uniquely. -/

/-- The `view_returns` vector as built by lines 173-180: start from
`cost.length` zeros and assign each viable candidate's return. -/
def computeViewReturns (cw : ℚ) (w : List ℚ) (cost : List ℚ)
    (info : List (List ℚ)) : List ℚ :=
  (List.range cost.length).foldl
    (fun acc i =>
      if cost.getD i 0 = -1 then acc
      else acc.set i (calculateReturn cw w (cost.getD i 0) (info.getD i [])))
    (List.replicate cost.length 0)

/-- Modelled from the spec: the mean computed by `st_is::StdError`. -/
def listMean (l : List ℚ) : ℚ := l.sum / l.length

/-- Modelled from the spec: the variance computed by `st_is::StdError`
(the recorded standard deviation is its square root, line 205). -/
def listVariance (l : List ℚ) : ℚ :=
  ((l.map (fun x => (x - listMean l) ^ 2)).sum) / l.length

/-- The returns of the viable candidates alone (what the statistics would
range over if cost-excluded candidates were omitted instead of
contributing `0`). -/
def viableReturns (cw : ℚ) (w : List ℚ) (cost : List ℚ)
    (info : List (List ℚ)) : List ℚ :=
  ((List.range cost.length).filter (fun i => cost.getD i 0 ≠ -1)).map
    (fun i => calculateReturn cw w (cost.getD i 0) (info.getD i []))

/-- Characterisation of the partial folds building `view_returns`: after
processing indices `0..m-1` the vector still has one slot per candidate;
slot `i` holds the candidate's return if `i < m` and the candidate is
viable, and `0` otherwise. -/
theorem computeViewReturns_upTo (cw : ℚ) (w : List ℚ) (cost : List ℚ)
    (info : List (List ℚ)) :
    ∀ m : ℕ,
      (((List.range m).foldl
        (fun acc i =>
          if cost.getD i 0 = -1 then acc
          else acc.set i (calculateReturn cw w (cost.getD i 0) (info.getD i [])))
        (List.replicate cost.length 0)).length = cost.length) ∧
      (∀ i : ℕ, ((List.range m).foldl
        (fun acc i =>
          if cost.getD i 0 = -1 then acc
          else acc.set i (calculateReturn cw w (cost.getD i 0) (info.getD i [])))
        (List.replicate cost.length 0))[i]? =
          if i < cost.length then
            some (if i < m ∧ cost.getD i 0 ≠ -1
              then calculateReturn cw w (cost.getD i 0) (info.getD i []) else 0)
          else none) := by
  intro m
  induction m with
  | zero =>
    refine ⟨by simp, ?_⟩
    intro i
    simp only [List.range_zero, List.foldl_nil]
    by_cases hi : i < cost.length
    · rw [if_pos hi, if_neg (by omega)]
      simp [List.getElem?_replicate, hi]
    · rw [if_neg hi]
      simp [List.getElem?_replicate, hi]
  | succ m ih =>
    obtain ⟨ihlen, ihget⟩ := ih
    rw [List.range_succ, List.foldl_append, List.foldl_cons, List.foldl_nil]
    by_cases hcm : cost.getD m 0 = -1
    · rw [if_pos hcm]
      refine ⟨ihlen, ?_⟩
      intro i
      rw [ihget i]
      by_cases hi : i < cost.length
      · rw [if_pos hi, if_pos hi]
        congr 1
        by_cases him : i < m
        · have h1 : i < m + 1 := by omega
          simp [him, h1]
        · by_cases him2 : i = m
          · subst him2
            rw [if_neg (fun h => absurd h.1 (lt_irrefl i)),
              if_neg (fun h => h.2 hcm)]
          · have h1 : ¬ i < m + 1 := by omega
            simp [him, h1]
      · rw [if_neg hi, if_neg hi]
    · rw [if_neg hcm]
      constructor
      · rw [List.length_set, ihlen]
      · intro i
        by_cases him : i = m
        · subst him
          by_cases hi : i < cost.length
          · rw [List.getElem?_set_self (by rw [ihlen]; exact hi)]
            rw [if_pos hi, if_pos ⟨by omega, hcm⟩]
          · have : cost.length ≤ i := by omega
            rw [List.getElem?_eq_none (by rw [List.length_set, ihlen]; exact this)]
            rw [if_neg hi]
        · rw [List.getElem?_set_ne (fun h => him h.symm)]
          rw [ihget i]
          by_cases hi : i < cost.length
          · rw [if_pos hi, if_pos hi]
            congr 1
            by_cases hlt : i < m
            · have h1 : i < m + 1 := by omega
              simp [hlt, h1]
            · have h1 : ¬ i < m + 1 := by omega
              simp [hlt, h1]
          · rw [if_neg hi, if_neg hi]

/-- The vector `view_returns` equals the vector with one entry per considered
candidate: the candidate's return when viable, `0` when cost-excluded. -/
theorem computeViewReturns_eq_map (cw : ℚ) (w : List ℚ) (cost : List ℚ)
    (info : List (List ℚ)) :
    computeViewReturns cw w cost info =
      (List.range cost.length).map (fun i =>
        if cost.getD i 0 = -1 then 0
        else calculateReturn cw w (cost.getD i 0) (info.getD i [])) := by
  apply List.ext_getElem?
  intro i
  rw [computeViewReturns,
    (computeViewReturns_upTo cw w cost info cost.length).2 i,
    List.getElem?_map]
  by_cases hi : i < cost.length
  · rw [if_pos hi, List.getElem?_range hi]
    simp only [Option.map_some']
    congr 1
    by_cases hc : cost.getD i 0 = -1
    · rw [if_neg (fun h => h.2 hc), if_pos hc]
    · rw [if_pos ⟨hi, hc⟩, if_neg hc]
  · rw [if_neg hi]
    rw [List.getElem?_eq_none (by simpa using not_lt.mp hi)]
    rfl

/-- Claim C10: the vector handed to `st_is::StdError` for the recorded
`return_value_mean` / `return_value_stddev` has exactly one entry per
considered candidate — cost-excluded candidates contribute the value `0`
instead of being omitted, viable ones their return — and these statistics
differ from statistics over the viable candidates' returns alone: in the
round with costs `[-1, 1]` (no information weights), the padded vector is
`[0, -1]` with mean `-1/2` and variance `1/4`, whereas the viable returns
alone are `[-1]` with mean `-1` and variance `0`. -/
theorem c10_return_stats (cw : ℚ) (w : List ℚ) (cost : List ℚ)
    (info : List (List ℚ)) :
    (computeViewReturns cw w cost info).length = cost.length ∧
    (∀ i, i < cost.length → cost.getD i 0 = -1 →
      (computeViewReturns cw w cost info).getD i 0 = 0) ∧
    (∀ i, i < cost.length → cost.getD i 0 ≠ -1 →
      (computeViewReturns cw w cost info).getD i 0 =
        calculateReturn cw w (cost.getD i 0) (info.getD i [])) ∧
    listMean (computeViewReturns 1 [] [-1, 1] [[], []]) = -(1 / 2) ∧
    listVariance (computeViewReturns 1 [] [-1, 1] [[], []]) = 1 / 4 ∧
    listMean (viableReturns 1 [] [-1, 1] [[], []]) = -1 ∧
    listVariance (viableReturns 1 [] [-1, 1] [[], []]) = 0 := by
  have hv : computeViewReturns 1 [] [-1, 1] [[], []] = [0, -1] := by
    rw [computeViewReturns_eq_map]
    norm_num [List.range_succ, calculateReturn]
  have hv2 : viableReturns 1 [] [-1, 1] [[], []] = [-1] := by
    norm_num [viableReturns, List.range_succ, List.filter, calculateReturn]
  refine ⟨?_, ?_, ?_,
    by rw [hv]; norm_num [listMean],
    by rw [hv]; norm_num [listVariance, listMean],
    by rw [hv2]; norm_num [listMean],
    by rw [hv2]; norm_num [listVariance, listMean]⟩
  · rw [computeViewReturns]
    exact (computeViewReturns_upTo cw w cost info cost.length).1
  · intro i hi hc
    rw [computeViewReturns_eq_map, List.getD_eq_getElem?_getD,
      List.getElem?_map, List.getElem?_range hi]
    simp only [Option.map_some', Option.getD_some]
    rw [if_pos hc]
  · intro i hi hc
    rw [computeViewReturns_eq_map, List.getD_eq_getElem?_getD,
      List.getElem?_map, List.getElem?_range hi]
    simp only [Option.map_some', Option.getD_some]
    rw [if_neg hc]

/-- Witness for `c10_return_stats`, at the round with costs `[-1, 1]`:
the vector has two entries, the excluded candidate's slot holds `0` and
the viable one holds its return `-1`. -/
theorem c10_return_stats_witness :
    (computeViewReturns 1 [] [-1, 1] [[], []]).length = 2 ∧
    (computeViewReturns 1 [] [-1, 1] [[], []]).getD 0 0 = 0 ∧
    (computeViewReturns 1 [] [-1, 1] [[], []]).getD 1 0 =
      calculateReturn 1 [] 1 [] :=
  ⟨(c10_return_stats 1 [] [-1, 1] [[], []]).1,
    (c10_return_stats 1 [] [-1, 1] [[], []]).2.1 0 (by norm_num) (by norm_num),
    (c10_return_stats 1 [] [-1, 1] [[], []]).2.2.1 1 (by norm_num) (by norm_num)⟩

end DenseReconstruction
